import Mathlib

/-!
Verification of the audio transcription pipeline
(`teacher_style_identification.audio`): waveform codec, harmonic feature
extractor, nearest-neighbour recognizer and evaluator.  Python floats are
modelled as real numbers, WAV files as records of raw integer frames, and
fallible operations (file decoding, fitting, prediction) as `Option`/`Except`
valued functions.
-/

namespace TeacherStyleId

noncomputable section

/-! ## Waveform codec (`audio/utils.py`) -/

/-- Python `int(x)` on a float: truncation toward zero. -/
def truncToInt (x : ℝ) : ℤ := if 0 ≤ x then ⌊x⌋ else ⌈x⌉

/-- A linear-PCM WAV file: per-sample byte width, channel count, frame rate and
the raw integer samples (interleaved when multi-channel). -/
structure WavFile where
  sampleWidth : ℕ
  channels : ℕ
  rate : ℕ
  frames : List ℤ

/-- Split the interleaved sample list into chunks of `c` samples
(`range(0, len(audio), channels)` slicing in `load_wav_mono`). -/
def chunkList (c : ℕ) : List ℤ → List (List ℤ)
  | [] => []
  | x :: xs => (x :: xs.take (c - 1)) :: chunkList c (xs.drop (c - 1))
termination_by l => l.length
decreasing_by simp; omega

/-- Multi-channel downmix from `load_wav_mono`: every chunk of `channels`
raw samples is averaged with float division and the result truncated back to
an integer (`array(typecode, (int(x) for x in mono))`). -/
def downmix (channels : ℕ) (audio : List ℤ) : List ℤ :=
  (chunkList channels audio).map (fun chunk => truncToInt ((chunk.sum : ℝ) / (chunk.length : ℝ)))

/-- The per-sample scaling applied by `load_wav_mono`: 8-bit samples are
unsigned with a 128 offset, wider samples are signed and divided by
`2 ** (8 * sample_width - 1)`. -/
def scaleSample (sample_width : ℕ) (value : ℤ) : ℝ :=
  if sample_width = 1 then ((value : ℝ) - 128) / 128
  else (value : ℝ) / ((2 : ℝ) ^ (8 * sample_width - 1))

/-- `load_wav_mono`: decode a WAV file into a float signal and its rate.
`none` models the unsupported-sample-width failure; a missing file is
modelled at the `AudioSample` level. -/
def load_wav_mono (f : WavFile) : Option (List ℝ × ℕ) :=
  if f.sampleWidth = 1 ∨ f.sampleWidth = 2 ∨ f.sampleWidth = 4 then
    let audio := if 1 < f.channels then downmix f.channels f.frames else f.frames
    some (audio.map (scaleSample f.sampleWidth), f.rate)
  else none

/-- Clipping to `[-1, 1]` from `save_wav_mono` (`min(1.0, max(-1.0, value))`). -/
def clip (x : ℝ) : ℝ := min 1 (max (-1) x)

/-- 16-bit quantization from `save_wav_mono`: `int(clipped * 32767.0)`. -/
def quantize16 (x : ℝ) : ℤ := truncToInt (clip x * 32767)

/-- `save_wav_mono`: clip, quantize to 16-bit signed PCM and write a
single-channel file at the given rate. -/
def save_wav_mono (signal : List ℝ) (sample_rate : ℕ) : WavFile :=
  ⟨2, 1, sample_rate, signal.map quantize16⟩

/-! ## Feature extraction (`audio/features.py`) -/

/-- Python `round(x)` on a float: round half to even. -/
def pyRound (x : ℝ) : ℤ :=
  if x - ⌊x⌋ < 1 / 2 then ⌊x⌋
  else if 1 / 2 < x - ⌊x⌋ then ⌊x⌋ + 1
  else if Even ⌊x⌋ then ⌊x⌋ else ⌊x⌋ + 1

/-- Extractor configuration (`HarmonicFeatureExtractor` dataclass).
`analysis_window` and `hop_length` are informational and never read. -/
structure HarmonicFeatureExtractor where
  sample_rate : ℕ := 16000
  analysis_window : ℝ := 25 / 1000
  hop_length : ℝ := 10 / 1000
  probe_frequencies : List ℝ := [120, 240, 480, 960]

namespace HarmonicFeatureExtractor

/-- `_resample`: piecewise-linear interpolation to the target rate. -/
def resample (signal : List ℝ) (orig_sr target_sr : ℕ) : List ℝ :=
  if orig_sr = target_sr then signal
  else if signal.isEmpty then signal
  else
    let duration : ℝ := (signal.length : ℝ) / (orig_sr : ℝ)
    let target_length : ℕ := (max 1 (pyRound (duration * (target_sr : ℝ)))).toNat
    let step : ℝ := ((signal.length : ℝ) - 1) / ((max (target_length - 1) 1 : ℕ) : ℝ)
    (List.range target_length).map (fun (i : ℕ) =>
      let pos : ℝ := (i : ℝ) * step
      let left : ℕ := (⌊pos⌋).toNat
      let right : ℕ := min (left + 1) (signal.length - 1)
      let frac : ℝ := pos - (left : ℝ)
      (1 - frac) * signal.getD left 0 + frac * signal.getD right 0)

/-- The loop body condition of `_zero_crossing_rate`:
`(prev >= 0 > value) or (prev <= 0 < value)`. -/
def crossingCount : List ℝ → ℕ
  | [] => 0
  | [_] => 0
  | a :: b :: rest =>
    (if (0 ≤ a ∧ b < 0) ∨ (a ≤ 0 ∧ 0 < b) then 1 else 0) + crossingCount (b :: rest)

/-- `_zero_crossing_rate`: crossings divided by `len(signal) - 1`,
or `0` for signals shorter than two samples. -/
def zero_crossing_rate (signal : List ℝ) : ℝ :=
  if signal.length < 2 then 0
  else (crossingCount signal : ℝ) / ((signal.length : ℝ) - 1)

/-- `_average_power`: single-frequency Goertzel-style correlation. -/
def average_power (signal : List ℝ) (frequency : ℝ) (sample_rate : ℕ) : ℝ :=
  if frequency ≤ 0 then 0
  else
    let angular : ℝ := 2 * Real.pi * frequency / (sample_rate : ℝ)
    let cos_sum : ℝ := (signal.enum.map (fun p => p.2 * Real.cos (angular * (p.1 : ℝ)))).sum
    let sin_sum : ℝ := (signal.enum.map (fun p => p.2 * Real.sin (angular * (p.1 : ℝ)))).sum
    let scale : ℝ := 2 / (signal.length : ℝ)
    scale * (cos_sum ^ 2 + sin_sum ^ 2)

/-- `extract`: resample if needed, then global energy statistics followed by
one spectral power per probe frequency. -/
def extract (cfg : HarmonicFeatureExtractor) (signal0 : List ℝ) (sample_rate : ℕ) : List ℝ :=
  let signal := if sample_rate ≠ cfg.sample_rate
    then resample signal0 sample_rate cfg.sample_rate else signal0
  if signal.isEmpty then List.replicate (cfg.probe_frequencies.length + 4) 0
  else
    let mean := signal.sum / (signal.length : ℝ)
    let variance := ((signal.map (fun x => (x - mean) ^ 2)).sum) / (signal.length : ℝ)
    let std := Real.sqrt variance
    let mean_abs := ((signal.map (fun x => |x|)).sum) / (signal.length : ℝ)
    let zero_crossings := zero_crossing_rate signal
    let powers := cfg.probe_frequencies.map (fun freq => average_power signal freq cfg.sample_rate)
    [mean_abs, std, variance, zero_crossings] ++ powers

end HarmonicFeatureExtractor

/-! ## Recognizer (`audio/recognizer.py`) -/

/-- A labelled audio example (`AudioSample`).  Instead of a filesystem path the
model carries the file the path resolves to; `none` models a missing file. -/
structure AudioSample where
  file : Option WavFile
  transcript : String

/-- `load_wav_mono(sample.path)`: resolve the path, then decode. -/
def loadSample (s : AudioSample) : Option (List ℝ × ℕ) :=
  s.file.bind load_wav_mono

/-- The errors raised along the recognizer/evaluator pipeline. -/
inductive RecError where
  | missingOrUnsupported
  | emptyDataset
  | notFitted
  | emptyResultSet
deriving DecidableEq

/-- `RecognitionResult` dataclass. -/
structure RecognitionResult where
  sample : AudioSample
  predicted_transcript : String
  distance : ℝ

/-- Recognizer state: the extractor plus the reference set
(`_embeddings` / `_transcripts`). -/
structure NearestNeighborRecognizer where
  feature_extractor : HarmonicFeatureExtractor
  embeddings : List (List ℝ)
  transcripts : List String

namespace NearestNeighborRecognizer

/-- `__init__`: empty reference set. -/
def init (cfg : HarmonicFeatureExtractor) : NearestNeighborRecognizer := ⟨cfg, [], []⟩

/-- `sum(value * value for value in vector)` from `_normalize`. -/
def sumSq (v : List ℝ) : ℝ := (v.map (fun x => x * x)).sum

/-- The Euclidean norm computed by `_normalize`. -/
def vectorNorm (v : List ℝ) : ℝ := Real.sqrt (sumSq v)

/-- `_normalize`: L2-normalize, mapping a zero vector to zero. -/
def normalize (v : List ℝ) : List ℝ :=
  if vectorNorm v = 0 then v.map (fun _ => 0) else v.map (fun x => x / vectorNorm v)

/-- `_cosine_similarity`: raw dot product. -/
def cosine_similarity (a b : List ℝ) : ℝ := (List.zipWith (fun x y => x * y) a b).sum

/-- The reference-building loop of `fit`: decode and extract every sample,
failing if any decode fails. -/
def buildReferences (cfg : HarmonicFeatureExtractor) :
    List AudioSample → Option (List (List ℝ) × List String)
  | [] => some ([], [])
  | s :: rest =>
    match loadSample s with
    | none => none
    | some (sig, sr) =>
      match buildReferences cfg rest with
      | none => none
      | some (es, ts) => some (normalize (cfg.extract sig sr) :: es, s.transcript :: ts)

/-- `fit`: build the reference lists locally, fail on a decode error or an
empty dataset, and only then install them into the recognizer state. -/
def fit (r : NearestNeighborRecognizer) (dataset : List AudioSample) :
    NearestNeighborRecognizer × Option RecError :=
  match buildReferences r.feature_extractor dataset with
  | none => (r, some .missingOrUnsupported)
  | some (es, ts) =>
    if es.isEmpty then (r, some .emptyDataset)
    else ({ r with embeddings := es, transcripts := ts }, none)

/-- `is_fitted`: `bool(self._embeddings)`. -/
def is_fitted (r : NearestNeighborRecognizer) : Bool := !r.embeddings.isEmpty

/-- The scan loop of `predict_sample` over the list of similarities, carrying
the running index, `best_index` and `best_similarity`. -/
def scanBest : List ℝ → ℕ → ℕ → ℝ → ℕ × ℝ
  | [], _, best_index, best_similarity => (best_index, best_similarity)
  | s :: rest, idx, best_index, best_similarity =>
    if best_similarity < s then scanBest rest (idx + 1) idx s
    else scanBest rest (idx + 1) best_index best_similarity

/-- The default used for the (always in-bounds) transcript lookup. -/
def emptyTranscript : String := ""

/-- `predict_sample`: fail when unfitted, decode and featurize the query, scan
the reference set for the highest similarity (initial best `-1.0`), and return
the winning transcript with `distance = 1 - best_similarity`. -/
def predict_sample (r : NearestNeighborRecognizer) (sample : AudioSample) :
    Except RecError RecognitionResult :=
  if is_fitted r = false then .error .notFitted
  else
    match loadSample sample with
    | none => .error .missingOrUnsupported
    | some (sig, sr) =>
      let features := normalize (r.feature_extractor.extract sig sr)
      let best := scanBest (r.embeddings.map (fun ref => cosine_similarity ref features)) 0 0 (-1)
      .ok ⟨sample, r.transcripts.getD best.1 emptyTranscript, 1 - best.2⟩

/-- `transcribe`: predict every sample in order, propagating the first
failure. -/
def transcribe (r : NearestNeighborRecognizer) :
    List AudioSample → Except RecError (List RecognitionResult)
  | [] => .ok []
  | s :: rest =>
    match predict_sample r s with
    | .error e => .error e
    | .ok res =>
      match transcribe r rest with
      | .error e => .error e
      | .ok results => .ok (res :: results)

end NearestNeighborRecognizer

/-! ## Evaluation (`audio/evaluation.py`) -/

/-- `RecognitionReport`; the confusion defaultdict is modelled as its count
function. -/
structure RecognitionReport where
  accuracy : ℝ
  total_samples : ℕ
  confusion : String → String → ℕ

/-- The confusion counts built by the `evaluate_recognizer` loop. -/
def confusionOf (results : List RecognitionResult) : String → String → ℕ :=
  fun truth pred =>
    results.countP (fun res => res.sample.transcript == truth && res.predicted_transcript == pred)

/-- `evaluate_recognizer`: transcribe the dataset, fail on an empty result
list, otherwise report accuracy, sample count and confusion counts. -/
def evaluate_recognizer (dataset : List AudioSample) (r : NearestNeighborRecognizer) :
    Except RecError RecognitionReport :=
  match NearestNeighborRecognizer.transcribe r dataset with
  | .error e => .error e
  | .ok results =>
    if results.length = 0 then .error .emptyResultSet
    else
      .ok ⟨((results.countP
              (fun res => res.predicted_transcript == res.sample.transcript)) : ℝ) /
            ((results.length : ℕ) : ℝ),
          results.length, confusionOf results⟩

/-! ## Division-guarded variants of the extractor helpers (for the totality
claim): each division site named by the claim is guarded, returning `none`
when its divisor would be zero. -/

namespace HarmonicFeatureExtractor

/-- `_zero_crossing_rate` with its division by `len(signal) - 1` guarded. -/
def zero_crossing_rate_checked (signal : List ℝ) : Option ℝ :=
  if signal.length < 2 then some 0
  else if ((signal.length : ℝ) - 1) = 0 then none
  else some ((crossingCount signal : ℝ) / ((signal.length : ℝ) - 1))

/-- `_average_power` with its division `2.0 / len(signal)` guarded. -/
def average_power_checked (signal : List ℝ) (frequency : ℝ) (sample_rate : ℕ) : Option ℝ :=
  if frequency ≤ 0 then some 0
  else if signal.length = 0 then none
  else some (average_power signal frequency sample_rate)

/-- The probe-power list of `extract` built from the guarded helper. -/
def mapPowersChecked (signal : List ℝ) (sample_rate : ℕ) : List ℝ → Option (List ℝ)
  | [] => some []
  | f :: fs =>
    match average_power_checked signal f sample_rate, mapPowersChecked signal sample_rate fs with
    | some p, some ps => some (p :: ps)
    | _, _ => none

/-- `extract` with the two division sites named by the totality claim
guarded; `none` would mean a division by zero is reached. -/
def extractChecked (cfg : HarmonicFeatureExtractor) (signal0 : List ℝ) (sample_rate : ℕ) :
    Option (List ℝ) :=
  let signal := if sample_rate ≠ cfg.sample_rate
    then resample signal0 sample_rate cfg.sample_rate else signal0
  if signal.isEmpty then some (List.replicate (cfg.probe_frequencies.length + 4) 0)
  else
    let mean := signal.sum / (signal.length : ℝ)
    let variance := ((signal.map (fun x => (x - mean) ^ 2)).sum) / (signal.length : ℝ)
    let std := Real.sqrt variance
    let mean_abs := ((signal.map (fun x => |x|)).sum) / (signal.length : ℝ)
    match zero_crossing_rate_checked signal,
        mapPowersChecked signal cfg.sample_rate cfg.probe_frequencies with
    | some z, some powers => some ([mean_abs, std, variance, z] ++ powers)
    | _, _ => none

end HarmonicFeatureExtractor

/-! ## Spec-side definition for the zero-crossing claim -/

open HarmonicFeatureExtractor in
/-- Modelled from claim C2's words: the number of adjacent pairs where one
sample is `≥ 0` and the next strictly negative, or one sample strictly
negative and the next `≥ 0`. -/
def specClaimCrossingCount (signal : List ℝ) : ℕ :=
  (signal.zip signal.tail).countP
    (fun p => decide ((0 ≤ p.1 ∧ p.2 < 0) ∨ (p.1 < 0 ∧ 0 ≤ p.2)))

/-! ## Claim theorems (first batch) -/

open HarmonicFeatureExtractor NearestNeighborRecognizer

/-- A default extractor configuration, used by concrete witnesses. -/
def cfg0 : HarmonicFeatureExtractor := {}

/-- A concrete transcript label for witnesses. -/
def labelA : String := "a"

/-- A sample whose file decodes to the empty 16-bit mono signal at 16 kHz. -/
def s0 : AudioSample := ⟨some ⟨2, 1, 16000, []⟩, labelA⟩

/-- A recognizer state holding one (empty) normalized reference vector. -/
def r1 : NearestNeighborRecognizer := ⟨cfg0, [[]], [labelA]⟩

/-- The state produced by fitting the fresh recognizer on `[s0]`. -/
def r2 : NearestNeighborRecognizer :=
  ⟨cfg0, [[(0 : ℝ), 0, 0, 0, 0, 0, 0, 0]], [labelA]⟩

/-- The result list produced by transcribing `[s0]` with `r1`. -/
def results0 : List RecognitionResult := [⟨s0, labelA, 1⟩]

/-! ### Helper lemmas on the extractor -/

lemma resample_nil (orig_sr target_sr : ℕ) : resample [] orig_sr target_sr = [] := by
  unfold resample
  split <;> simp

lemma mapPowersChecked_eq (signal : List ℝ) (sample_rate : ℕ) (hs : signal.length ≠ 0)
    (fs : List ℝ) :
    mapPowersChecked signal sample_rate fs =
      some (fs.map (fun f => average_power signal f sample_rate)) := by
  induction fs with
  | nil => rfl
  | cons f fs ih =>
    by_cases hf : f ≤ 0 <;>
      simp [mapPowersChecked, average_power_checked, hs, hf, ih, average_power]

lemma crossingCount_eq_countP :
    ∀ signal : List ℝ,
      crossingCount signal =
        (signal.zip signal.tail).countP
          (fun p => decide ((0 ≤ p.1 ∧ p.2 < 0) ∨ (p.1 ≤ 0 ∧ 0 < p.2)))
  | [] => rfl
  | [_] => rfl
  | a :: b :: rest => by
    have ih := crossingCount_eq_countP (b :: rest)
    by_cases h : (0 ≤ a ∧ b < 0) ∨ (a ≤ 0 ∧ 0 < b) <;>
      simp [crossingCount, List.countP_cons, h, ih]
    all_goals omega

/-- C5: `load_wav_mono` scales 8-bit frames as unsigned with a 128 offset to
`(v - 128)/128` and scales 16-bit and 32-bit frames as signed by dividing by
`2^(bits-1)`, i.e. by 32768 and 2147483648 respectively. -/
theorem load_wav_scaling (v : ℤ) :
    scaleSample 1 v = ((v : ℝ) - 128) / 128 ∧
    scaleSample 2 v = (v : ℝ) / 32768 ∧
    scaleSample 4 v = (v : ℝ) / 2147483648 := by
  refine ⟨rfl, ?_, ?_⟩ <;> (simp [scaleSample]; norm_num)

/-- C4: `extract` always returns a vector of length `4 + k` where `k` is the
number of probe frequencies, and on an empty signal it returns the all-zero
vector of that length. -/
theorem extract_fixed_length (cfg : HarmonicFeatureExtractor) (signal : List ℝ)
    (sample_rate : ℕ) :
    (cfg.extract signal sample_rate).length = 4 + cfg.probe_frequencies.length ∧
    cfg.extract [] sample_rate = List.replicate (4 + cfg.probe_frequencies.length) 0 := by
  constructor
  · unfold extract
    split <;> dsimp only <;> split <;> simp [Nat.add_comm] <;> omega
  · by_cases h : sample_rate ≠ cfg.sample_rate <;>
      simp [extract, resample_nil, h, Nat.add_comm]

/-- C10: the divisions by `len(signal)` in `_average_power` and by
`len(signal) - 1` in `_zero_crossing_rate` are never divisions by zero when
reached through `extract`: the guarded variant of `extract`, which returns
`none` whenever either divisor is zero, always succeeds and agrees with
`extract`. -/
theorem extract_divisions_safe (cfg : HarmonicFeatureExtractor) (signal : List ℝ)
    (sample_rate : ℕ) :
    extractChecked cfg signal sample_rate = some (cfg.extract signal sample_rate) := by
  unfold extractChecked extract
  set s := if sample_rate ≠ cfg.sample_rate
    then resample signal sample_rate cfg.sample_rate else signal with hs
  by_cases h : s.isEmpty
  · simp [h]
  · have hne : s ≠ [] := by simpa [List.isEmpty_iff] using h
    have hlen : s.length ≠ 0 := by simpa [List.length_eq_zero] using hne
    rw [if_neg (by simp [h]), if_neg (by simp [h])]
    rw [mapPowersChecked_eq s cfg.sample_rate hlen]
    by_cases h2 : s.length < 2
    · have : zero_crossing_rate s = 0 := by simp [zero_crossing_rate, h2]
      simp [zero_crossing_rate_checked, h2, this]
    · have hone : ((s.length : ℝ) - 1) ≠ 0 := by
        have : 2 ≤ s.length := by omega
        have : (2 : ℝ) ≤ (s.length : ℝ) := by exact_mod_cast this
        nlinarith
      simp [zero_crossing_rate_checked, h2, hone, zero_crossing_rate]

/-- C6: `fit` is atomic: whenever it fails (decode error or empty dataset),
the recognizer state is exactly what it was before the call. -/
theorem fit_failure_preserves_state (r : NearestNeighborRecognizer)
    (dataset : List AudioSample) (e : RecError) (h : (fit r dataset).2 = some e) :
    (fit r dataset).1 = r := by
  unfold fit at h ⊢
  cases hb : buildReferences r.feature_extractor dataset with
  | none => simp [hb]
  | some p =>
    obtain ⟨es, ts⟩ := p
    by_cases he : es.isEmpty <;> simp [hb, he] at h ⊢

/-- Witness for C6: fitting the freshly initialized recognizer on the empty
dataset fails and leaves the state unchanged. -/
theorem fit_failure_preserves_state_witness :
    (fit (init cfg0) []).2 = some RecError.emptyDataset ∧
    (fit (init cfg0) []).1 = init cfg0 :=
  ⟨rfl, fit_failure_preserves_state (init cfg0) [] RecError.emptyDataset rfl⟩

/-! ### Dot products of normalized vectors -/

lemma getD_zipWith_mul (a : List ℝ) :
    ∀ (b : List ℝ) (i : ℕ),
      (List.zipWith (fun x y => x * y) a b).getD i 0 = a.getD i 0 * b.getD i 0 := by
  induction a with
  | nil => intro b i; cases b <;> simp
  | cons x xs ih =>
    intro b i
    cases b with
    | nil => simp
    | cons y ys =>
      cases i with
      | zero => simp
      | succ n => simpa using ih ys n

lemma sum_eq_sum_range_getD (l : List ℝ) :
    ∀ n, l.length ≤ n → l.sum = ∑ j ∈ Finset.range n, l.getD j 0 := by
  induction l with
  | nil => intro n _; simp
  | cons x xs ih =>
    intro n hn
    cases n with
    | zero => simp at hn
    | succ m =>
      rw [Finset.sum_range_succ']
      simp only [List.getD_cons_succ, List.getD_cons_zero, List.sum_cons]
      rw [← ih m (by simpa using hn)]
      ring

lemma sumSq_eq_cos_self (v : List ℝ) : sumSq v = cosine_similarity v v := by
  unfold sumSq cosine_similarity
  congr 1
  induction v with
  | nil => rfl
  | cons x xs ih => rw [List.map_cons, List.zipWith_cons_cons, ih]

lemma cosine_similarity_sq_le (a b : List ℝ) :
    (cosine_similarity a b) ^ 2 ≤ sumSq a * sumSq b := by
  have hd : ∀ (x y : List ℝ), x.length ≤ max a.length b.length →
      cosine_similarity x y =
        ∑ j ∈ Finset.range (max a.length b.length), x.getD j 0 * y.getD j 0 := by
    intro x y hx
    unfold cosine_similarity
    rw [sum_eq_sum_range_getD _ (max a.length b.length)
      (by simp [List.length_zipWith]; omega)]
    exact Finset.sum_congr rfl fun j _ => getD_zipWith_mul x y j
  rw [hd a b (le_max_left _ _), sumSq_eq_cos_self a, sumSq_eq_cos_self b,
    hd a a (le_max_left _ _), hd b b (le_max_right _ _)]
  have hcs := Finset.sum_mul_sq_le_sq_mul_sq (Finset.range (max a.length b.length))
    (fun j => a.getD j 0) (fun j => b.getD j 0)
  calc (∑ j ∈ Finset.range (max a.length b.length), a.getD j 0 * b.getD j 0) ^ 2 ≤
      (∑ j ∈ Finset.range (max a.length b.length), (a.getD j 0) ^ 2) *
        ∑ j ∈ Finset.range (max a.length b.length), (b.getD j 0) ^ 2 := hcs
    _ = (∑ j ∈ Finset.range (max a.length b.length), a.getD j 0 * a.getD j 0) *
        ∑ j ∈ Finset.range (max a.length b.length), b.getD j 0 * b.getD j 0 := by
        congr 1 <;> exact Finset.sum_congr rfl fun j _ => by ring

lemma sumSq_nonneg (v : List ℝ) : 0 ≤ sumSq v := by
  apply List.sum_nonneg
  intro x hx
  obtain ⟨y, -, rfl⟩ := List.mem_map.mp hx
  exact mul_self_nonneg y

lemma neg_one_le_cosine_similarity (a b : List ℝ) (ha : sumSq a ≤ 1) (hb : sumSq b ≤ 1) :
    -1 ≤ cosine_similarity a b := by
  have h1 := cosine_similarity_sq_le a b
  have h2 : sumSq a * sumSq b ≤ 1 := by nlinarith [sumSq_nonneg a, sumSq_nonneg b]
  nlinarith [sq_nonneg (cosine_similarity a b + 1)]

lemma normalize_cases (v : List ℝ) :
    (∀ x ∈ normalize v, x = 0) ∨ sumSq (normalize v) = 1 := by
  unfold NearestNeighborRecognizer.normalize
  by_cases h : vectorNorm v = 0
  · left
    rw [if_pos h]
    intro x hx
    obtain ⟨y, -, rfl⟩ := List.mem_map.mp hx
    rfl
  · right
    rw [if_neg h]
    have hs0 : 0 ≤ sumSq v := sumSq_nonneg v
    have hne : sumSq v ≠ 0 := by
      intro h0
      exact h (by unfold vectorNorm; rw [h0, Real.sqrt_zero])
    unfold sumSq
    rw [List.map_map]
    have hfun : ((fun x => x * x) ∘ fun x => x / vectorNorm v) =
        fun x => (x * x) * (vectorNorm v * vectorNorm v)⁻¹ := by
      funext x
      rw [Function.comp_apply, div_mul_div_comm, div_eq_mul_inv]
    rw [hfun, List.sum_map_mul_right]
    unfold vectorNorm
    rw [Real.mul_self_sqrt hs0]
    rw [show (List.map (fun x => x * x) v).sum = sumSq v from rfl]
    field_simp

lemma sumSq_normalize_le_one (v : List ℝ) : sumSq (normalize v) ≤ 1 := by
  rcases normalize_cases v with h | h
  · have hz : sumSq (normalize v) = 0 := by
      rw [sumSq]
      apply List.sum_eq_zero
      intro x hx
      obtain ⟨y, hy, rfl⟩ := List.mem_map.mp hx
      rw [h y hy]
      ring
    linarith
  · linarith [h.le]

/-! ### The best-similarity scan of `predict_sample` -/

lemma scanBest_invariant :
    ∀ (t p : List ℝ) (bi : ℕ) (bs : ℝ),
      ((bi = 0 ∧ bs = -1 ∧ ∀ j < p.length, p.getD j 0 ≤ -1) ∨
        (bi < p.length ∧ p.getD bi 0 = bs ∧ (∀ j < p.length, p.getD j 0 ≤ bs) ∧
          ∀ j < bi, p.getD j 0 < bs)) →
      (((scanBest t p.length bi bs).1 = 0 ∧ (scanBest t p.length bi bs).2 = -1 ∧
          ∀ j < (p ++ t).length, (p ++ t).getD j 0 ≤ -1) ∨
        ((scanBest t p.length bi bs).1 < (p ++ t).length ∧
          (p ++ t).getD (scanBest t p.length bi bs).1 0 = (scanBest t p.length bi bs).2 ∧
          (∀ j < (p ++ t).length, (p ++ t).getD j 0 ≤ (scanBest t p.length bi bs).2) ∧
          ∀ j < (scanBest t p.length bi bs).1,
            (p ++ t).getD j 0 < (scanBest t p.length bi bs).2)) := by
  intro t
  induction t with
  | nil => intro p bi bs hinv; simpa [scanBest] using hinv
  | cons s rest ih =>
    intro p bi bs hinv
    have hub : ∀ j < p.length, p.getD j 0 ≤ bs := by
      rcases hinv with ⟨-, rfl, h3⟩ | ⟨-, -, h3, -⟩ <;> exact h3
    have hgetlast : (p ++ [s]).getD p.length 0 = s := by
      rw [List.getD_append_right _ _ _ _ (le_refl _), Nat.sub_self]
      rfl
    have hgetlt : ∀ j < p.length, (p ++ [s]).getD j 0 = p.getD j 0 := fun j hj =>
      List.getD_append _ _ _ _ hj
    have hlen : (p ++ [s]).length = p.length + 1 := by simp
    have happ : (p ++ [s]) ++ rest = p ++ s :: rest := by simp
    show ((scanBest (s :: rest) p.length bi bs).1 = 0 ∧ _) ∨ _
    rw [scanBest]
    by_cases hlt : bs < s
    · rw [if_pos hlt]
      have hinv' : (p.length : ℕ) < (p ++ [s]).length ∧ (p ++ [s]).getD p.length 0 = s ∧
          (∀ j < (p ++ [s]).length, (p ++ [s]).getD j 0 ≤ s) ∧
          ∀ j < p.length, (p ++ [s]).getD j 0 < s := by
        refine ⟨by omega, hgetlast, ?_, ?_⟩
        · intro j hj
          rw [hlen] at hj
          by_cases hjp : j < p.length
          · rw [hgetlt j hjp]
            exact le_of_lt (lt_of_le_of_lt (hub j hjp) hlt)
          · have : j = p.length := by omega
            rw [this, hgetlast]
        · intro j hj
          rw [hgetlt j hj]
          exact lt_of_le_of_lt (hub j hj) hlt
      have h := ih (p ++ [s]) p.length s (Or.inr hinv')
      rw [hlen, happ] at h
      exact h
    · rw [if_neg hlt]
      push_neg at hlt
      have hinv' : ((bi : ℕ) = 0 ∧ bs = -1 ∧ ∀ j < (p ++ [s]).length, (p ++ [s]).getD j 0 ≤ -1) ∨
          (bi < (p ++ [s]).length ∧ (p ++ [s]).getD bi 0 = bs ∧
            (∀ j < (p ++ [s]).length, (p ++ [s]).getD j 0 ≤ bs) ∧
            ∀ j < bi, (p ++ [s]).getD j 0 < bs) := by
        rcases hinv with ⟨hbi, hbs, hle⟩ | ⟨hbi, heq, hle, hstrict⟩
        · left
          refine ⟨hbi, hbs, ?_⟩
          intro j hj
          rw [hlen] at hj
          by_cases hjp : j < p.length
          · rw [hgetlt j hjp]
            exact hle j hjp
          · have : j = p.length := by omega
            rw [this, hgetlast]
            rw [hbs] at hlt
            exact hlt
        · right
          refine ⟨by omega, by rw [hgetlt bi hbi]; exact heq, ?_, ?_⟩
          · intro j hj
            rw [hlen] at hj
            by_cases hjp : j < p.length
            · rw [hgetlt j hjp]
              exact hle j hjp
            · have : j = p.length := by omega
              rw [this, hgetlast]
              exact hlt
          · intro j hj
            rw [hgetlt j (lt_trans hj hbi)]
            exact hstrict j hj
      have h := ih (p ++ [s]) bi bs hinv'
      rw [hlen, happ] at h
      exact h

lemma scanBest_argmax (l : List ℝ) (hne : l ≠ []) (hge : ∀ j < l.length, -1 ≤ l.getD j 0) :
    ∃ i, i < l.length ∧ scanBest l 0 0 (-1) = (i, l.getD i 0) ∧
      (∀ j < l.length, l.getD j 0 ≤ l.getD i 0) ∧ ∀ j < i, l.getD j 0 < l.getD i 0 := by
  have h := scanBest_invariant l [] 0 (-1) (Or.inl ⟨rfl, rfl, by simp⟩)
  simp only [List.nil_append, List.length_nil] at h
  rcases h with ⟨h1, h2, h3⟩ | ⟨h1, h2, h3, h4⟩
  · have hpos : 0 < l.length := List.length_pos.mpr hne
    have h0 : l.getD 0 0 = -1 := le_antisymm (h3 0 hpos) (hge 0 hpos)
    refine ⟨0, hpos, ?_, ?_, ?_⟩
    · rw [h0]
      exact Prod.ext_iff.mpr ⟨h1, h2⟩
    · intro j hj
      rw [h0]
      exact h3 j hj
    · intro j hj
      omega
  · refine ⟨(scanBest l 0 0 (-1)).1, h1, Prod.ext_iff.mpr ⟨rfl, h2.symm⟩, ?_, ?_⟩
    · intro j hj
      rw [h2]
      exact h3 j hj
    · intro j hj
      rw [h2]
      exact h4 j hj

/-- C1: for a recognizer with a non-empty reference set of normalized
embeddings (the invariant `fit` establishes) and a decodable query,
`predict_sample` scans the whole reference set, picks the first-seen index of
maximal cosine similarity (the raw dot product against the normalized query
features), and returns that reference's transcript with
`distance = 1 - best_similarity`; called on a freshly initialized (unfitted)
recognizer it fails with `NotFitted`. -/
theorem predict_sample_nearest (r : NearestNeighborRecognizer) (sample : AudioSample)
    (sig : List ℝ) (sr : ℕ) (sims : List ℝ)
    (hfit : r.embeddings ≠ [])
    (hnorm : ∀ e ∈ r.embeddings, sumSq e ≤ 1)
    (hload : loadSample sample = some (sig, sr))
    (hsims : sims = r.embeddings.map (fun ref => cosine_similarity ref
      (normalize (r.feature_extractor.extract sig sr)))) :
    (∃ i, i < r.embeddings.length ∧
      predict_sample r sample =
        Except.ok ⟨sample, r.transcripts.getD i emptyTranscript, 1 - sims.getD i 0⟩ ∧
      (∀ j < r.embeddings.length, sims.getD j 0 ≤ sims.getD i 0) ∧
      ∀ j < i, sims.getD j 0 < sims.getD i 0) ∧
    ∀ cfg : HarmonicFeatureExtractor,
      predict_sample (init cfg) sample = Except.error RecError.notFitted := by
  subst hsims
  constructor
  · have hge : ∀ j < (r.embeddings.map (fun ref => cosine_similarity ref
        (normalize (r.feature_extractor.extract sig sr)))).length,
        -1 ≤ (r.embeddings.map (fun ref => cosine_similarity ref
          (normalize (r.feature_extractor.extract sig sr)))).getD j 0 := by
      intro j hj
      rw [List.getD_eq_getElem _ _ hj, List.getElem_map]
      exact neg_one_le_cosine_similarity _ _ (hnorm _ (List.getElem_mem _))
        (sumSq_normalize_le_one _)
    obtain ⟨i, hi, heq, hmax, hstrict⟩ := scanBest_argmax
      (r.embeddings.map (fun ref => cosine_similarity ref
        (normalize (r.feature_extractor.extract sig sr)))) (by simp [hfit]) hge
    have hpred : predict_sample r sample =
        Except.ok ⟨sample, r.transcripts.getD (scanBest
            (r.embeddings.map (fun ref => cosine_similarity ref
              (normalize (r.feature_extractor.extract sig sr)))) 0 0 (-1)).1
            emptyTranscript,
          1 - (scanBest (r.embeddings.map (fun ref => cosine_similarity ref
            (normalize (r.feature_extractor.extract sig sr)))) 0 0 (-1)).2⟩ := by
      unfold predict_sample
      rw [if_neg (by simp [is_fitted, List.isEmpty_iff, hfit]), hload]
    refine ⟨i, by simpa using hi, ?_, ?_, ?_⟩
    · rw [hpred, heq]
    · intro j hj
      exact hmax j (by simpa using hj)
    · exact hstrict
  · intro cfg
    rfl

/-- Witness for C1: a one-reference recognizer over a decodable sample. -/
theorem predict_sample_nearest_witness :
    predict_sample r1 s0 = Except.ok ⟨s0, labelA, 1⟩ := by
  have h := predict_sample_nearest r1 s0 [] 16000
    (r1.embeddings.map (fun ref => cosine_similarity ref
      (normalize (r1.feature_extractor.extract [] 16000))))
    (by simp [r1]) (by intro e he; simp [r1] at he; simp [he, sumSq])
    (by simp [loadSample, s0, load_wav_mono]) rfl
  obtain ⟨⟨i, hi, heq, -, -⟩, -⟩ := h
  have hi0 : i = 0 := by
    simpa [r1] using hi
  rw [hi0] at heq
  rw [heq]
  simp [r1, cosine_similarity, labelA]

lemma buildReferences_spec (cfg : HarmonicFeatureExtractor) :
    ∀ (data : List AudioSample) (es : List (List ℝ)) (ts : List String),
      buildReferences cfg data = some (es, ts) →
      es.length = ts.length ∧ ∀ e ∈ es, ∃ w, e = normalize w := by
  intro data
  induction data with
  | nil =>
    intro es ts h
    simp [buildReferences] at h
    obtain ⟨rfl, rfl⟩ := h
    simp
  | cons s rest ih =>
    intro es ts h
    rw [buildReferences] at h
    cases hl : loadSample s with
    | none => rw [hl] at h; simp at h
    | some p =>
      obtain ⟨sig, sr⟩ := p
      rw [hl] at h
      cases hb : buildReferences cfg rest with
      | none => rw [hb] at h; simp at h
      | some q =>
        obtain ⟨es', ts'⟩ := q
        rw [hb] at h
        simp at h
        obtain ⟨h1, h2⟩ := h
        subst h1
        subst h2
        obtain ⟨hlen, hmem⟩ := ih es' ts' hb
        constructor
        · simp [hlen]
        · intro e he
          rcases List.mem_cons.mp he with rfl | he'
          · exact ⟨cfg.extract sig sr, rfl⟩
          · exact hmem e he'

/-- C9: after every successful `fit`, the embeddings and transcripts lists
have equal length and every stored embedding is either the all-zero vector or
has Euclidean norm 1.  (`predict_sample` and `transcribe` are pure functions
of the state in this embedding — and the Python methods contain no writes to
`_embeddings`/`_transcripts` — so they cannot modify it.) -/
theorem fit_reference_invariant (r r' : NearestNeighborRecognizer)
    (data : List AudioSample) (h : fit r data = (r', none)) :
    r'.embeddings.length = r'.transcripts.length ∧
    ∀ e ∈ r'.embeddings, (∀ x ∈ e, x = 0) ∨ vectorNorm e = 1 := by
  unfold fit at h
  cases hb : buildReferences r.feature_extractor data with
  | none => rw [hb] at h; simp at h
  | some p =>
    obtain ⟨es, ts⟩ := p
    rw [hb] at h
    by_cases he : es.isEmpty
    · simp [he] at h
    · simp [he] at h
      obtain ⟨hlen, hmem⟩ := buildReferences_spec r.feature_extractor data es ts hb
      subst h
      constructor
      · simpa using hlen
      · intro e he'
        simp at he'
        obtain ⟨w, rfl⟩ := hmem e he'
        rcases normalize_cases w with hz | hu
        · exact Or.inl hz
        · right
          unfold vectorNorm
          rw [hu, Real.sqrt_one]

/-- Witness for C9: fitting the fresh recognizer on the sample `s0` succeeds
and produces the state `r2`, whose reference lists have equal length. -/
theorem fit_reference_invariant_witness :
    fit (init cfg0) [s0] = (r2, none) ∧
    r2.embeddings.length = r2.transcripts.length := by
  have hfit : fit (init cfg0) [s0] = (r2, none) := by
    have hext : cfg0.extract [] 16000 = [(0 : ℝ), 0, 0, 0, 0, 0, 0, 0] := by
      simp [HarmonicFeatureExtractor.extract, cfg0]
    have hnz : normalize [(0 : ℝ), 0, 0, 0, 0, 0, 0, 0] = [(0 : ℝ), 0, 0, 0, 0, 0, 0, 0] := by
      simp [NearestNeighborRecognizer.normalize, vectorNorm, sumSq]
    simp [fit, buildReferences, loadSample, s0, load_wav_mono, hext, hnz, r2, init]
  exact ⟨hfit, (fit_reference_invariant (init cfg0) r2 [s0] hfit).1⟩

/-- C8: when `transcribe` succeeds with a non-empty result list,
`evaluate_recognizer` reports `accuracy = correct / total` (where `correct`
counts results whose predicted transcript equals the sample's transcript) and
`total_samples = total`; with an empty result list it fails with
`EmptyResultSet`. -/
theorem evaluate_accuracy (r : NearestNeighborRecognizer) (data : List AudioSample)
    (results : List RecognitionResult) (h : transcribe r data = Except.ok results) :
    (results = [] → evaluate_recognizer data r = Except.error RecError.emptyResultSet) ∧
    (results ≠ [] →
      evaluate_recognizer data r = Except.ok ⟨((results.countP
          (fun res => res.predicted_transcript == res.sample.transcript)) : ℝ) /
          ((results.length : ℕ) : ℝ), results.length, confusionOf results⟩) := by
  constructor
  · intro hr
    subst hr
    unfold evaluate_recognizer
    rw [h]
    rfl
  · intro hr
    unfold evaluate_recognizer
    rw [h]
    have : ¬(results.length = 0) := by simp [List.length_eq_zero, hr]
    simp only [this, if_false, ite_false]

/-- Witness for C8: evaluating the one-reference recognizer `r1` on `[s0]`. -/
theorem evaluate_accuracy_witness :
    transcribe r1 [s0] = Except.ok results0 ∧
    evaluate_recognizer [s0] r1 = Except.ok ⟨((results0.countP
        (fun res => res.predicted_transcript == res.sample.transcript)) : ℝ) /
        ((results0.length : ℕ) : ℝ), results0.length, confusionOf results0⟩ := by
  have hp : predict_sample r1 s0 = Except.ok ⟨s0, labelA, 1⟩ := by
    unfold NearestNeighborRecognizer.predict_sample
    rw [if_neg (by simp [is_fitted, r1]),
      show loadSample s0 = some ([], 16000) from by simp [loadSample, s0, load_wav_mono]]
    norm_num [r1, cosine_similarity, scanBest, labelA]
  have ht : transcribe r1 [s0] = Except.ok results0 := by
    rw [transcribe, hp, transcribe]
    rfl
  exact ⟨ht, (evaluate_accuracy r1 [s0] results0 ht).2 (by simp [results0])⟩

/-- C2 counterexample: on the signal `[0, 1]` the code's zero-crossing rate is
`1` (the code counts the transition `0 → 1` because `prev <= 0 < value`), while
the claim's count — requiring the earlier sample to be strictly negative for a
negative-to-nonnegative transition — gives rate `0`. -/
theorem zero_crossing_claim_counterexample :
    zero_crossing_rate [(0 : ℝ), 1] = 1 ∧
    (specClaimCrossingCount [(0 : ℝ), 1] : ℝ) / (((([(0 : ℝ), 1]).length : ℝ)) - 1) = 0 := by
  constructor
  · norm_num [zero_crossing_rate, crossingCount]
  · norm_num [specClaimCrossingCount, List.countP_cons]

/-- C2 amended: for signals of length ≥ 2 the zero-crossing rate equals the
number of adjacent pairs where the first sample is `≥ 0` and the next strictly
negative, or the first sample is `≤ 0` and the next strictly positive, divided
by `length - 1`; for shorter signals it is `0`. -/
theorem zero_crossing_rate_pairs (signal : List ℝ) :
    (signal.length < 2 → zero_crossing_rate signal = 0) ∧
    (2 ≤ signal.length →
      zero_crossing_rate signal =
        ((signal.zip signal.tail).countP
            (fun p => decide ((0 ≤ p.1 ∧ p.2 < 0) ∨ (p.1 ≤ 0 ∧ 0 < p.2))) : ℝ) /
          ((signal.length : ℝ) - 1)) := by
  constructor
  · intro h
    simp [zero_crossing_rate, h]
  · intro h
    rw [zero_crossing_rate, if_neg (by omega), crossingCount_eq_countP]

lemma scaleSample_two (v : ℤ) : scaleSample 2 v = (v : ℝ) / 32768 := by
  simp [scaleSample]
  norm_num

lemma quant16_error (v : ℝ) (h1 : -1 ≤ v) (h2 : v ≤ 1) :
    |v - (quantize16 v : ℝ) / 32768| ≤ 1 / 16384 := by
  have hc : clip v = v := by rw [clip, max_eq_right h1, min_eq_right h2]
  rw [quantize16, hc, truncToInt, abs_le]
  by_cases h0 : 0 ≤ v * 32767
  · rw [if_pos h0]
    have hf1 : ((⌊v * 32767⌋ : ℤ) : ℝ) ≤ v * 32767 := Int.floor_le _
    have hf2 : v * 32767 < (⌊v * 32767⌋ : ℤ) + 1 := Int.lt_floor_add_one _
    constructor <;> linarith
  · rw [if_neg h0]
    have hf1 : v * 32767 ≤ ((⌈v * 32767⌉ : ℤ) : ℝ) := Int.le_ceil _
    have hf2 : ((⌈v * 32767⌉ : ℤ) : ℝ) < v * 32767 + 1 := Int.ceil_lt_add_one _
    constructor <;> linarith

/-- C3 counterexample: the sample value `0.9999` round-trips to
`32763/32768`, an error of about `5.26e-5`, which exceeds the claimed bound
`1/32767` (about `3.05e-5`) even after adding a generous floating tolerance of
`1e-5`. -/
theorem wav_roundtrip_claim_counterexample :
    load_wav_mono (save_wav_mono [(9999 / 10000 : ℝ)] 8000) =
      some ([(32763 : ℝ) / 32768], 8000) ∧
    ¬ |(9999 / 10000 : ℝ) - (32763 : ℝ) / 32768| ≤ 1 / 32767 + 1 / 100000 := by
  have hq : quantize16 (9999 / 10000 : ℝ) = 32763 := by
    rw [quantize16, clip, max_eq_right (by norm_num), min_eq_right (by norm_num),
      truncToInt, if_pos (by norm_num), Int.floor_eq_iff]
    constructor <;> norm_num
  constructor
  · simp [load_wav_mono, save_wav_mono, hq, scaleSample_two]
  · rw [not_le, abs_of_pos (by norm_num)]
    norm_num

/-- C3 amended: encoding a signal whose samples lie in `[-1, 1]` with
`save_wav_mono` and decoding it back with `load_wav_mono` returns the same
sample rate and per-sample values within `1/16384` (twice the 16-bit
quantization step used by the claim), the bound being forced by the
truncating `* 32767` encode against the `/ 32768` decode. -/
theorem wav_roundtrip_within_quantization (signal : List ℝ) (sample_rate : ℕ)
    (h : ∀ v ∈ signal, -1 ≤ v ∧ v ≤ 1) :
    load_wav_mono (save_wav_mono signal sample_rate) =
      some (signal.map (fun v => ((quantize16 v : ℤ) : ℝ) / 32768), sample_rate) ∧
    ∀ i < signal.length,
      |signal.getD i 0 -
          (signal.map (fun v => ((quantize16 v : ℤ) : ℝ) / 32768)).getD i 0| ≤
        1 / 16384 := by
  constructor
  · simp [load_wav_mono, save_wav_mono, List.map_map, Function.comp, scaleSample_two]
  · intro i hi
    have hm : i < (signal.map (fun v => ((quantize16 v : ℤ) : ℝ) / 32768)).length := by
      simpa using hi
    rw [List.getD_eq_getElem _ _ hi, List.getD_eq_getElem _ _ hm, List.getElem_map]
    exact quant16_error _ (h _ (List.getElem_mem _)).1 (h _ (List.getElem_mem _)).2

/-- Witness for C3's amended theorem: the single-sample signal `[1/2]`. -/
theorem wav_roundtrip_within_quantization_witness :
    (∀ v ∈ [(1 / 2 : ℝ)], -1 ≤ v ∧ v ≤ 1) ∧
    |([(1 / 2 : ℝ)]).getD 0 0 -
        (([(1 / 2 : ℝ)]).map (fun v => ((quantize16 v : ℤ) : ℝ) / 32768)).getD 0 0| ≤
      1 / 16384 :=
  ⟨by norm_num,
    (wav_roundtrip_within_quantization [(1 / 2 : ℝ)] 44100 (by norm_num)).2 0 (by norm_num)⟩

/-- C7: for a non-empty signal at a rate different from the target,
`_resample` produces `max 1 (round(len/orig * target))` output samples, and
sample `i` linearly interpolates the two nearest input samples around the
fractional position `i * (len - 1) / max(out_len - 1, 1)`; the computed left
index is always in range. -/
theorem resample_linear_interpolation (signal : List ℝ) (orig_sr target_sr : ℕ)
    (m : ℕ) (step : ℝ) (hne : signal ≠ []) (hdiff : orig_sr ≠ target_sr)
    (hm : m = (max 1 (pyRound ((signal.length : ℝ) / (orig_sr : ℝ) * (target_sr : ℝ)))).toNat)
    (hstep : step = ((signal.length : ℝ) - 1) / ((max (m - 1) 1 : ℕ) : ℝ)) :
    (resample signal orig_sr target_sr).length = m ∧
    ∀ i < m,
      (⌊(i : ℝ) * step⌋).toNat < signal.length ∧
      (resample signal orig_sr target_sr).getD i 0 =
        (1 - ((i : ℝ) * step - ((⌊(i : ℝ) * step⌋).toNat : ℝ))) *
            signal.getD (⌊(i : ℝ) * step⌋).toNat 0 +
          ((i : ℝ) * step - ((⌊(i : ℝ) * step⌋).toNat : ℝ)) *
            signal.getD (min ((⌊(i : ℝ) * step⌋).toNat + 1) (signal.length - 1)) 0 := by
  subst hm hstep
  have hlen1 : 1 ≤ signal.length := List.length_pos.mpr hne
  have hize : ¬signal.isEmpty = true := by simpa [List.isEmpty_iff] using hne
  unfold resample
  rw [if_neg hdiff, if_neg hize]
  dsimp only
  refine ⟨by simp, ?_⟩
  intro i him
  have hmax1 : 1 ≤ max ((max 1 (pyRound ((signal.length : ℝ) / (orig_sr : ℝ) *
      (target_sr : ℝ)))).toNat - 1) 1 := le_max_right _ _
  have hmaxpos : (0 : ℝ) < ((max ((max 1 (pyRound ((signal.length : ℝ) / (orig_sr : ℝ) *
      (target_sr : ℝ)))).toNat - 1) 1 : ℕ) : ℝ) := by exact_mod_cast hmax1
  have hn1 : (1 : ℝ) ≤ (signal.length : ℝ) := by exact_mod_cast hlen1
  have hiu : (i : ℝ) ≤ ((max ((max 1 (pyRound ((signal.length : ℝ) / (orig_sr : ℝ) *
      (target_sr : ℝ)))).toNat - 1) 1 : ℕ) : ℝ) := by
    have : i ≤ max ((max 1 (pyRound ((signal.length : ℝ) / (orig_sr : ℝ) *
      (target_sr : ℝ)))).toNat - 1) 1 := by omega
    exact_mod_cast this
  have hposle : (i : ℝ) * (((signal.length : ℝ) - 1) /
      ((max ((max 1 (pyRound ((signal.length : ℝ) / (orig_sr : ℝ) *
        (target_sr : ℝ)))).toNat - 1) 1 : ℕ) : ℝ)) ≤ (signal.length : ℝ) - 1 := by
    calc (i : ℝ) * (((signal.length : ℝ) - 1) / _) ≤
        ((max ((max 1 (pyRound ((signal.length : ℝ) / (orig_sr : ℝ) *
          (target_sr : ℝ)))).toNat - 1) 1 : ℕ) : ℝ) * (((signal.length : ℝ) - 1) /
          ((max ((max 1 (pyRound ((signal.length : ℝ) / (orig_sr : ℝ) *
            (target_sr : ℝ)))).toNat - 1) 1 : ℕ) : ℝ)) :=
          mul_le_mul_of_nonneg_right hiu (div_nonneg (by linarith) hmaxpos.le)
      _ = (signal.length : ℝ) - 1 := by
          rw [mul_comm]
          exact div_mul_cancel₀ _ hmaxpos.ne'
  have hfloorle : ⌊(i : ℝ) * (((signal.length : ℝ) - 1) /
      ((max ((max 1 (pyRound ((signal.length : ℝ) / (orig_sr : ℝ) *
        (target_sr : ℝ)))).toNat - 1) 1 : ℕ) : ℝ))⌋ ≤ (signal.length : ℤ) - 1 := by
    calc ⌊(i : ℝ) * _⌋ ≤ ⌊(signal.length : ℝ) - 1⌋ := Int.floor_mono hposle
      _ = (signal.length : ℤ) - 1 := by
          rw [show ((signal.length : ℝ) - 1) = (((signal.length : ℤ) - 1 : ℤ) : ℝ) by
            push_cast; ring, Int.floor_intCast]
  have hinb : (⌊(i : ℝ) * (((signal.length : ℝ) - 1) /
      ((max ((max 1 (pyRound ((signal.length : ℝ) / (orig_sr : ℝ) *
        (target_sr : ℝ)))).toNat - 1) 1 : ℕ) : ℝ))⌋).toNat < signal.length := by omega
  refine ⟨hinb, ?_⟩
  rw [List.getD_eq_getElem _ _ (by simpa using him), List.getElem_map, List.getElem_range]

/-- Witness for C7: resampling `[1, 3]` from 8000 Hz to 16000 Hz gives four
output samples with step `1/3`; output sample 1 interpolates inputs 0 and 1. -/
theorem resample_linear_interpolation_witness :
    ((⌊((1 : ℕ) : ℝ) * ((1 : ℝ) / 3)⌋).toNat < ([(1 : ℝ), 3]).length) ∧
    (resample [(1 : ℝ), 3] 8000 16000).getD 1 0 =
      (1 - (((1 : ℕ) : ℝ) * ((1 : ℝ) / 3) -
          ((⌊((1 : ℕ) : ℝ) * ((1 : ℝ) / 3)⌋).toNat : ℝ))) *
          ([(1 : ℝ), 3]).getD (⌊((1 : ℕ) : ℝ) * ((1 : ℝ) / 3)⌋).toNat 0 +
        (((1 : ℕ) : ℝ) * ((1 : ℝ) / 3) -
          ((⌊((1 : ℕ) : ℝ) * ((1 : ℝ) / 3)⌋).toNat : ℝ)) *
          ([(1 : ℝ), 3]).getD (min ((⌊((1 : ℕ) : ℝ) * ((1 : ℝ) / 3)⌋).toNat + 1)
            (([(1 : ℝ), 3]).length - 1)) 0 := by
  have hm : (4 : ℕ) = (max 1 (pyRound ((([(1 : ℝ), 3]).length : ℝ) / ((8000 : ℕ) : ℝ) *
      ((16000 : ℕ) : ℝ)))).toNat := by
    have hx : ((([(1 : ℝ), 3]).length : ℝ) / ((8000 : ℕ) : ℝ) * ((16000 : ℕ) : ℝ)) = 4 := by
      norm_num
    rw [hx, pyRound]
    have hf : ⌊(4 : ℝ)⌋ = 4 := by
      rw [Int.floor_eq_iff]
      norm_num
    rw [hf]
    norm_num
    rfl
  have hstep : ((1 : ℝ) / 3) = ((([(1 : ℝ), 3]).length : ℝ) - 1) /
      ((max ((4 : ℕ) - 1) 1 : ℕ) : ℝ) := by norm_num
  exact (resample_linear_interpolation [(1 : ℝ), 3] 8000 16000 4 ((1 : ℝ) / 3)
    (by simp) (by norm_num) hm hstep).2 1 (by norm_num)

/-- Witness for C2's amended theorem at the signal `[1, -1]`. -/
theorem zero_crossing_rate_pairs_witness :
    2 ≤ ([(1 : ℝ), -1]).length ∧
    zero_crossing_rate [(1 : ℝ), -1] =
      ((([(1 : ℝ), -1]).zip ([(1 : ℝ), -1]).tail).countP
          (fun p => decide ((0 ≤ p.1 ∧ p.2 < 0) ∨ (p.1 ≤ 0 ∧ 0 < p.2))) : ℝ) /
        ((([(1 : ℝ), -1]).length : ℝ) - 1) :=
  ⟨by norm_num, (zero_crossing_rate_pairs [(1 : ℝ), -1]).2 (by norm_num)⟩

end

end TeacherStyleId
